import Mathlib

/-!
Verification of the cursor-pagination core of a knex-based repository helper
library (`repository.ts` together with `options/QueryOption.ts`).

The embedding models:
* knex instances (`Db`), transaction handles (`Trx`);
* the option bag passed to the repository methods (`QueryOption`), a flat
  record of optional fields mirroring the TypeScript intersection
  `SelectOption & CPaginationOption & { disablePrependTableName?; disablePageSizePlusOne? }`;
* query builders (`Builder`) as the data collected by the chained knex
  calls (`transacting`, `forUpdate`, `orderBy`, `where`, `limit`, `max`,
  `first`);
* the repository methods `db`, `qb`, `qbMax`, `qbCPaginate`;
* a relational execution semantics (`Builder.execute`) over tables holding
  one modelled column (the id column, a natural number per row), with SQL
  `MAX` over an empty table yielding `NULL` and comparisons against `NULL`
  matching no row.
-/

/-- A knex instance (a connection handle such as `dbmain` / `dbreadonly`);
opaque, identified by a tag. -/
structure Db where
  tag : Nat
deriving DecidableEq

/-- An opaque `Knex.Transaction` handle. -/
structure Trx where
  tag : Nat
deriving DecidableEq

/-- The `"asc" | "desc"` ordering literal. -/
inductive Order where
  | asc
  | desc
deriving DecidableEq

/-- The comparator strings built by `qbCPaginate`: the source only ever
assigns `">="` (ascending) or `"<="` (descending). -/
inductive Cmp where
  | ge
  | le
deriving DecidableEq

/-- The option bag.  Fields `readonly`, `trx`, `for_update`, `order`,
`order_by` come from `QueryOption` in `options/QueryOption.ts`;
`disablePrependTableName` and `disablePageSizePlusOne` from the inline
intersection members in `repository.ts`.

Modelled from the spec: the `CPaginationOption` interface itself is not in
the sources (only its use in `repository.ts` is): per the spec it adds
`page_size` (integer; 0 or absent means unbounded) and `start_id` (cursor
scalar of the id column domain, or absent).  `start_id` is modelled as the
scalar id value (the source passes it as a bound parameter; its
query-builder form is not needed by the claims below). -/
structure QueryOption where
  readonly : Option Bool := none
  trx : Option Trx := none
  for_update : Option Bool := none
  order : Option Order := none
  order_by : Option String := none
  disablePrependTableName : Option Bool := none
  page_size : Option Int := none
  start_id : Option Nat := none
  disablePageSizePlusOne : Option Bool := none
deriving DecidableEq

/-- `createSelectOption(trx?, after?)` from `options/QueryOption.ts`:
`{ readonly: after ? false : true, trx }`. -/
def createSelectOption (trx : Option Trx := none) (after : Option Bool := none) : QueryOption :=
  { readonly := some (if after.getD false then false else true), trx := trx }

/-- `createSelectForUpdateOption(trx)`: `{ readonly: false, for_update: true, trx }`. -/
def createSelectForUpdateOption (trx : Trx) : QueryOption :=
  { readonly := some false, for_update := some true, trx := some trx }

/-- `createInsertOption(trx?)`: `{ readonly: false, trx }`. -/
def createInsertOption (trx : Option Trx := none) : QueryOption :=
  { readonly := some false, trx := trx }

/-- `createUpdateOption(trx?)`: `{ readonly: false, trx }`. -/
def createUpdateOption (trx : Option Trx := none) : QueryOption :=
  { readonly := some false, trx := trx }

/-- `createDeleteOption(trx?)`: `{ readonly: false, trx }`. -/
def createDeleteOption (trx : Option Trx := none) : QueryOption :=
  { readonly := some false, trx := trx }

/-- The value compared against the id column by the pagination `where`
clause: either a scalar binding (the source's default ascending cursor is
the literal `"1"`, bound against the numeric id column, hence modelled as
the number `1`), or the `qbMax` subquery over a table, column and option
(`this.qbMax(table, id_column, opt)` in the source). -/
inductive CursorVal where
  | lit (v : Nat)
  | maxSub (table : String) (column : String) (opt : Option QueryOption)
deriving DecidableEq

/-- A knex query builder, as the record of the chained calls made on it. -/
structure Builder where
  /-- The knex instance the builder was created from (`this.db(opt)(table)`). -/
  source : Db
  table : String
  /-- Set by `qb.transacting(opt.trx)`. -/
  transacting : Option Trx := none
  /-- Set by `qb.forUpdate()`. -/
  forUpdate : Bool := false
  /-- The `orderBy(column, direction)` calls, in order. -/
  orderBy : List (String × Order) := []
  /-- The `where(column, comparator, value)` calls, in order. -/
  whereClauses : List (String × Cmp × CursorVal) := []
  /-- Set by `limit(n)`. -/
  limit : Option Int := none
  /-- Set by `max(column, { as: "max" })`. -/
  maxColumn : Option String := none
  /-- Set by `first()`. -/
  firstOnly : Bool := false
deriving DecidableEq

/-- The repository's two handles.  The constructor default
`this.dbreadonly = params.dbreadonly ?? params.dbmain` is `Repository.make`. -/
structure Repository where
  dbmain : Db
  dbreadonly : Db
deriving DecidableEq

/-- The constructor: `dbreadonly` falls back to `dbmain` when absent. -/
def Repository.make (dbmain : Db) (dbreadonly : Option Db) : Repository :=
  { dbmain := dbmain, dbreadonly := dbreadonly.getD dbmain }

/-- `prependTableName(table, column)` = `` `${table}.${column}` ``. -/
def prependTableName (table column : String) : String :=
  table ++ "." ++ column

/-- `db(opt)`: `opt?.readonly ? this.dbreadonly : this.dbmain`. -/
def Repository.db (r : Repository) (opt : Option QueryOption) : Db :=
  if (opt.bind fun o => o.readonly).getD false then r.dbreadonly else r.dbmain

/-- `qb(table, opt)`: create a builder on `db(opt)`, attach the transaction
(and, inside that branch, `forUpdate`) and the optional `order`/`order_by`
ordering. -/
def Repository.qb (r : Repository) (table : String) (opt : Option QueryOption) : Builder :=
  let b : Builder := { source := r.db opt, table := table }
  let b :=
    match opt.bind fun o => o.trx with
    | some t =>
      let b1 := { b with transacting := some t }
      if (opt.bind fun o => o.for_update).getD false then { b1 with forUpdate := true } else b1
    | none => b
  match opt with
  | some o =>
    match o.order, o.order_by with
    | some ord, some col =>
      { b with orderBy := b.orderBy ++
          [(if o.disablePrependTableName.getD false then col else prependTableName table col, ord)] }
    | some _, none => b
    | none, _ => b
  | none => b

/-- `qbMax(table, column, opt)`: `qb(table, opt).max(qualified column, { as: "max" }).first()`. -/
def Repository.qbMax (r : Repository) (table column : String) (opt : Option QueryOption) : Builder :=
  let b := r.qb table opt
  { b with
    maxColumn := some (if (opt.bind fun o => o.disablePrependTableName).getD false
      then column else prependTableName table column),
    firstOnly := true }

/-- Source line `const page_size = (opt?.page_size && opt.page_size > 0) ? opt.page_size : 0`:
the effective page size is `page_size` when strictly positive, else `0`. -/
def normPageSize (ps : Option Int) : Int :=
  match ps with
  | some p => if 0 < p then p else 0
  | none => 0

/-- Source line `const order = "desc" === opt?.order ? "desc" : "asc"`. -/
def defaultOrder (o : Option Order) : Order :=
  if o = some Order.desc then Order.desc else Order.asc

/-- Comparator per direction: `">="` ascending, `"<="` descending. -/
def orderCmp : Order → Cmp
  | Order.asc => Cmp.ge
  | Order.desc => Cmp.le

/-- Cursor resolution: the caller's `start_id` when present; otherwise the
literal `"1"` ascending, or the `qbMax` subquery descending
(`cursor ??= ...` in both branches of the source). -/
def defaultCursor (table id_column : String) (opt : Option QueryOption)
    (order : Order) : CursorVal :=
  match opt.bind fun o => o.start_id with
  | some v => CursorVal.lit v
  | none =>
    match order with
    | Order.asc => CursorVal.lit 1
    | Order.desc => CursorVal.maxSub table id_column opt

/-- The `pageSize + (disablePageSizePlusOne ? 0 : 1)` extra row. -/
def plusOneExtra (opt : Option QueryOption) : Int :=
  if (opt.bind fun o => o.disablePageSizePlusOne).getD false then 0 else 1

/-- `qbCPaginate(table, id_column, opt)`: normalize `page_size` to `0`
unless strictly positive, default the order to ascending, pick comparator
and default cursor by direction (`>=` with literal `1`, or `<=` with the
`qbMax` subquery), add the boundary `where`, the `orderBy`, and the
`limit(page_size + (disablePageSizePlusOne ? 0 : 1))` when `page_size` is
non-zero. -/
def Repository.qbCPaginate (r : Repository) (table id_column : String)
    (opt : Option QueryOption) : Builder :=
  let page_size : Int := normPageSize (opt.bind fun o => o.page_size)
  let order : Order := defaultOrder (opt.bind fun o => o.order)
  let dis : Bool := (opt.bind fun o => o.disablePrependTableName).getD false
  let cursor : CursorVal := defaultCursor table id_column opt order
  let b := r.qb table opt
  let b := { b with whereClauses := b.whereClauses ++
      [((if dis then id_column else prependTableName table id_column), orderCmp order, cursor)] }
  let b := { b with orderBy := b.orderBy ++
      [((if dis then id_column else prependTableName table id_column), order)] }
  if page_size = 0 then b
  else { b with limit := some (page_size + plusOneExtra opt) }

/-- SQL `MAX` aggregate over the modelled column: `NULL` (`none`) on an
empty table. -/
def maxAgg : List Nat → Option Nat
  | [] => none
  | x :: xs =>
    match maxAgg xs with
    | none => some x
    | some m => some (max x m)

/-- Value of a cursor under a database environment (table name to rows):
a literal binds as itself, the `qbMax` subquery yields the `MAX` of the
referenced table's id column. -/
def CursorVal.eval (env : String → List Nat) : CursorVal → Option Nat
  | CursorVal.lit v => some v
  | CursorVal.maxSub table _ _ => maxAgg (env table)

/-- SQL comparison of a row's id against an optional (possibly `NULL`)
bound: comparisons against `NULL` hold for no row. -/
def Cmp.holds : Cmp → Nat → Option Nat → Bool
  | _, _, none => false
  | Cmp.ge, x, some v => decide (v ≤ x)
  | Cmp.le, x, some v => decide (x ≤ v)

/-- Whether a row satisfies one `where` clause. -/
def rowMatches (env : String → List Nat) (x : Nat) (w : String × Cmp × CursorVal) : Bool :=
  Cmp.holds w.2.1 x (CursorVal.eval env w.2.2)

/-- Whether a row satisfies every `where` clause of a builder. -/
def Builder.matchesRow (b : Builder) (env : String → List Nat) (x : Nat) : Bool :=
  b.whereClauses.all fun w => rowMatches env x w

/-- `ORDER BY id ASC` over the modelled column. -/
def sortAsc (l : List Nat) : List Nat :=
  List.insertionSort (fun a b => a ≤ b) l

/-- `ORDER BY id DESC` over the modelled column. -/
def sortDesc (l : List Nat) : List Nat :=
  List.insertionSort (fun a b => b ≤ a) l

/-- Relational semantics of an unexecuted builder: filter the table by the
`where` clauses, sort by the primary `orderBy` direction, truncate to the
`limit`. -/
def Builder.execute (b : Builder) (env : String → List Nat) : List Nat :=
  let rows := (env b.table).filter (b.matchesRow env)
  let sorted :=
    match b.orderBy.head? with
    | some (_, Order.asc) => sortAsc rows
    | some (_, Order.desc) => sortDesc rows
    | none => rows
  match b.limit with
  | some n => sorted.take n.toNat
  | none => sorted

/-- Semantics of a `qbMax` builder (`select max(col) as max ... first()`):
the `MAX` aggregate over the rows passing its `where` clauses. -/
def Builder.evalMax (b : Builder) (env : String → List Nat) : Option Nat :=
  maxAgg ((env b.table).filter (b.matchesRow env))

/-- Characterization of `qb` as a record literal. -/
theorem qb_eq (r : Repository) (table : String) (opt : Option QueryOption) :
    r.qb table opt =
      { source := r.db opt, table := table,
        transacting := opt.bind fun o => o.trx,
        forUpdate := (opt.bind fun o => o.trx).isSome
          && ((opt.bind fun o => o.for_update).getD false),
        orderBy :=
          match opt with
          | some o =>
            match o.order, o.order_by with
            | some ord, some col =>
              [(if o.disablePrependTableName.getD false then col
                else prependTableName table col, ord)]
            | some _, none => []
            | none, _ => []
          | none => [] } := by
  cases opt with
  | none => rfl
  | some o =>
    obtain ⟨ro, tr, fu, ord, ob, dpt, ps, sid, dpp⟩ := o
    rcases tr with _ | t <;> rcases fu with _ | (_ | _) <;>
      rcases ord with _ | (_ | _) <;> rcases ob with _ | c <;> rfl

/-- The qualified column used by `qbCPaginate` for both the boundary
`where` and the `orderBy`. -/
def qualify (table idc : String) (opt : Option QueryOption) : String :=
  if (opt.bind fun o => o.disablePrependTableName).getD false then idc
  else prependTableName table idc

/-- The final `modify` of `qbCPaginate` only sets `limit`; every other field
agrees with the builder before it. -/
theorem qbCPaginate_fields (r : Repository) (table idc : String) (opt : Option QueryOption) :
    (r.qbCPaginate table idc opt).table = table
    ∧ (r.qbCPaginate table idc opt).source = (r.qb table opt).source
    ∧ (r.qbCPaginate table idc opt).transacting = (r.qb table opt).transacting
    ∧ (r.qbCPaginate table idc opt).forUpdate = (r.qb table opt).forUpdate := by
  simp only [Repository.qbCPaginate]
  split <;> simp [qb_eq]

/-- The `where` clauses built by `qbCPaginate`: exactly the one boundary
clause (qualified id column, direction comparator, cursor or its default). -/
theorem qbCPaginate_whereClauses (r : Repository) (table idc : String)
    (opt : Option QueryOption) :
    (r.qbCPaginate table idc opt).whereClauses =
      [(qualify table idc opt,
        orderCmp (defaultOrder (opt.bind fun o => o.order)),
        defaultCursor table idc opt (defaultOrder (opt.bind fun o => o.order)))] := by
  simp only [Repository.qbCPaginate]
  split <;> simp [qb_eq, qualify]

/-- The ordering built by `qbCPaginate`: whatever `qb` contributed, followed
by the qualified id column in the pagination direction. -/
theorem qbCPaginate_orderBy (r : Repository) (table idc : String)
    (opt : Option QueryOption) :
    (r.qbCPaginate table idc opt).orderBy =
      (r.qb table opt).orderBy ++
        [(qualify table idc opt, defaultOrder (opt.bind fun o => o.order))] := by
  simp only [Repository.qbCPaginate]
  split <;> simp [qualify]

/-- The `limit` built by `qbCPaginate`: none when the normalized page size
is zero, else the normalized page size plus the optional peek row. -/
theorem qbCPaginate_limit (r : Repository) (table idc : String) (opt : Option QueryOption) :
    (r.qbCPaginate table idc opt).limit =
      (if normPageSize (opt.bind fun o => o.page_size) = 0 then none
       else some (normPageSize (opt.bind fun o => o.page_size) + plusOneExtra opt)) := by
  simp only [Repository.qbCPaginate]
  split <;> rename_i h <;> simp [h, qb_eq]

/-- Executing any builder over an empty table yields the empty list (and in
particular no error: the semantics is total). -/
theorem execute_of_table_empty (b : Builder) (env : String → List Nat)
    (h : env b.table = []) : b.execute env = [] := by
  simp only [Builder.execute, h, List.filter_nil]
  split
  · split <;> simp [sortAsc, sortDesc, List.insertionSort]
  · split <;> simp [sortAsc, sortDesc, List.insertionSort]

/-- The output of a builder with `limit n` has at most `n` rows. -/
theorem execute_length_le (b : Builder) (env : String → List Nat) (n : Int)
    (h : b.limit = some n) : (b.execute env).length ≤ n.toNat := by
  simp only [Builder.execute, h]
  split <;> apply List.length_take_le

/-- With no `limit`, every table row passing all `where` clauses appears in
the output. -/
theorem mem_execute_of_limit_none (b : Builder) (env : String → List Nat)
    (h : b.limit = none) (x : Nat) (hx : x ∈ env b.table)
    (hm : b.matchesRow env x = true) : x ∈ b.execute env := by
  have hmem : x ∈ (env b.table).filter (b.matchesRow env) := List.mem_filter.mpr ⟨hx, hm⟩
  simp only [Builder.execute, h]
  split
  · exact ((List.perm_insertionSort _ _).mem_iff).mpr hmem
  · exact ((List.perm_insertionSort _ _).mem_iff).mpr hmem
  · exact hmem

/-- Pointwise unfolding of `matchesRow` (usable on partial applications). -/
theorem matchesRow_eq (b : Builder) (env : String → List Nat) :
    b.matchesRow env = fun x => b.whereClauses.all fun w => rowMatches env x w := rfl

/-- Sorting ascending leaves an already-sorted list unchanged. -/
theorem sortAsc_eq_of_sorted {l : List Nat} (h : List.Sorted (· ≤ ·) l) : sortAsc l = l :=
  h.insertionSort_eq

/-- Sorting ascending after filtering a strictly-sorted list is the
identity. -/
theorem sortAsc_filter_of_sorted {l : List Nat} (h : List.Sorted (· < ·) l)
    (p : Nat → Bool) : sortAsc (l.filter p) = l.filter p :=
  sortAsc_eq_of_sorted ((h.imp fun hab => le_of_lt hab).filter p)

/-- On a strictly increasing list, keeping the rows at least the `k`-th
element is exactly dropping the first `k` elements. -/
theorem filter_pivot_of_sorted (l : List Nat) :
    List.Sorted (· < ·) l → ∀ (k : Nat) (hk : k < l.length),
      l.filter (fun x => decide (l.get ⟨k, hk⟩ ≤ x)) = l.drop k := by
  induction l with
  | nil => intro _ k hk; simp at hk
  | cons a xs ih =>
    intro hs k hk
    rcases List.sorted_cons.mp hs with ⟨ha, hxs⟩
    cases k with
    | zero =>
      simp only [List.get_cons_zero, List.drop_zero]
      rw [List.filter_cons_of_pos (by simp)]
      congr 1
      exact List.filter_eq_self.mpr fun b hb => by
        simpa using le_of_lt (ha b hb)
    | succ k =>
      have hk' : k < xs.length := by simpa using hk
      have hget : (a :: xs).get ⟨k + 1, hk⟩ = xs.get ⟨k, hk'⟩ := rfl
      simp only [hget]
      rw [List.filter_cons_of_neg, ih hxs k hk']
      · rfl
      · simp only [decide_eq_true_eq, not_le]
        exact ha _ (xs.get_mem k hk')

/-- `getD` through `take`. -/
theorem getD_take (l : List Nat) (m n d : Nat) (h : m < n) :
    (l.take n).getD m d = l.getD m d := by
  simp [List.getD_eq_getElem?_getD, List.getElem?_take, h]

/-- `getD` through `drop`. -/
theorem getD_drop (l : List Nat) (m n d : Nat) :
    (l.drop m).getD n d = l.getD (m + n) d := by
  simp [List.getD_eq_getElem?_getD, List.getElem?_drop]

/-- `getD` inside the list is `get`. -/
theorem getD_eq_get (l : List Nat) (m d : Nat) (h : m < l.length) :
    l.getD m d = l.get ⟨m, h⟩ := by
  simp [List.getD_eq_getElem?_getD, List.getElem?_eq_getElem h, List.get_eq_getElem]

/-- A repository whose writable and readonly handles are distinct, used by
the concrete instantiations below. -/
def repoWR : Repository :=
  { dbmain := { tag := 0 }, dbreadonly := { tag := 1 } }

/-- C6: the handle resolution `db(opt)` returns `dbreadonly` when
`opt.readonly` is `true` and `dbmain` otherwise, including when the option
is absent.  (Purity and absence of side effects are intrinsic to the
functional embedding: `db` is a function of `r` and `opt` alone.) -/
theorem c6_db_resolution (r : Repository) (opt : QueryOption) :
    (opt.readonly = some true → r.db (some opt) = r.dbreadonly)
    ∧ (opt.readonly ≠ some true → r.db (some opt) = r.dbmain)
    ∧ r.db none = r.dbmain := by
  refine ⟨fun h => by simp [Repository.db, h], fun h => ?_, rfl⟩
  rcases hro : opt.readonly with _ | b
  · simp [Repository.db, hro]
  · cases b
    · simp [Repository.db, hro]
    · exact absurd hro h

/-- Witness for `c6_db_resolution` at concrete options. -/
theorem c6_db_resolution_witness :
    (({ readonly := some true } : QueryOption).readonly = some true
      ∧ repoWR.db (some { readonly := some true }) = repoWR.dbreadonly)
    ∧ (({} : QueryOption).readonly ≠ some true
      ∧ repoWR.db (some {}) = repoWR.dbmain) :=
  ⟨⟨rfl, (c6_db_resolution repoWR _).1 rfl⟩,
   ⟨by decide, (c6_db_resolution repoWR _).2.1 (by decide)⟩⟩

/-- C7: `qb` attaches the caller's transaction exactly when `opt.trx` is
present, and sets `forUpdate` exactly when both `opt.trx` and
`opt.for_update` are set; in particular `for_update` without `trx` yields
neither. -/
theorem c7_qb_trx_locking (r : Repository) (table : String) (opt : Option QueryOption) :
    ((r.qb table opt).transacting = opt.bind fun o => o.trx)
    ∧ ((r.qb table opt).forUpdate
        = ((opt.bind fun o => o.trx).isSome && (opt.bind fun o => o.for_update).getD false)) := by
  rw [qb_eq]
  exact ⟨rfl, rfl⟩

/-- C9: every option preset constructor keeps the supplied transaction
handle, and `createSelectForUpdateOption` additionally sets
`readonly = false` and `for_update = true`. -/
theorem c9_presets_keep_trx (t : Trx) (after : Option Bool) :
    (createSelectOption (some t) after).trx = some t
    ∧ (createSelectForUpdateOption t).trx = some t
    ∧ (createInsertOption (some t)).trx = some t
    ∧ (createUpdateOption (some t)).trx = some t
    ∧ (createDeleteOption (some t)).trx = some t
    ∧ (createSelectForUpdateOption t).readonly = some false
    ∧ (createSelectForUpdateOption t).for_update = some true :=
  ⟨rfl, rfl, rfl, rfl, rfl, rfl, rfl⟩

/-- C10: `createSelectOption(trx, after)` sets `readonly` to `false` only
when `after` is `true`, and to `true` otherwise (absent or `false`); so a
select option carrying a transaction but built with `after` unset has
`readonly = true` and is routed by `db` to `dbreadonly` despite the
transaction. -/
theorem c10_select_option_routing (r : Repository) (t : Trx) (after : Option Bool) :
    ((createSelectOption (some t) after).readonly
      = some (if after.getD false then false else true))
    ∧ (createSelectOption (some t) none).readonly = some true
    ∧ (createSelectOption (some t) (some false)).readonly = some true
    ∧ (createSelectOption (some t) (some true)).readonly = some false
    ∧ (createSelectOption (some t) none).trx = some t
    ∧ r.db (some (createSelectOption (some t) none)) = r.dbreadonly
    ∧ r.db (some (createSelectOption (some t) (some false))) = r.dbreadonly := by
  refine ⟨rfl, rfl, rfl, rfl, rfl, ?_, ?_⟩ <;> rfl

/-- C1 counterexample: with `readonly = true` and a transaction set, the
builder produced by `qb` (and the handle resolved by `db`) is the readonly
handle, not the writable `dbmain`. -/
theorem c1_counterexample :
    ({ readonly := some true, trx := some { tag := 5 } } : QueryOption).trx
        = some { tag := 5 }
    ∧ ¬ ((repoWR.qb "users"
          (some { readonly := some true, trx := some { tag := 5 } })).source
        = repoWR.dbmain)
    ∧ ¬ (repoWR.db (some { readonly := some true, trx := some { tag := 5 } })
        = repoWR.dbmain) := by
  refine ⟨rfl, ?_, ?_⟩ <;> decide

/-- C1 amended: when `trx` is set, every builder produced via `qb`, `qbMax`
and `qbCPaginate` carries that transaction (so the query executes within
the transaction's session), but the knex handle the builder is created from
is decided by `readonly` alone: `dbreadonly` when `readonly` is `true`,
`dbmain` otherwise. -/
theorem c1_trx_attach_and_handle (r : Repository) (table idc : String)
    (opt : QueryOption) (t : Trx) (h : opt.trx = some t) :
    (r.qb table (some opt)).transacting = some t
    ∧ (r.qbMax table idc (some opt)).transacting = some t
    ∧ (r.qbCPaginate table idc (some opt)).transacting = some t
    ∧ ((r.qb table (some opt)).source =
        if opt.readonly = some true then r.dbreadonly else r.dbmain) := by
  have h1 : (r.qb table (some opt)).transacting = some t := by
    rw [qb_eq]; simpa using h
  refine ⟨h1, ?_, ?_, ?_⟩
  · simpa [Repository.qbMax] using h1
  · rw [(qbCPaginate_fields r table idc (some opt)).2.2.1]
    exact h1
  · rw [qb_eq]
    rcases hro : opt.readonly with _ | b
    · simp [Repository.db, hro]
    · cases b <;> simp [Repository.db, hro]

/-- Witness for `c1_trx_attach_and_handle` at a concrete option. -/
theorem c1_trx_attach_and_handle_witness :
    ({ readonly := some true, trx := some { tag := 5 } } : QueryOption).trx
        = some { tag := 5 }
    ∧ ((repoWR.qb "users"
          (some { readonly := some true, trx := some { tag := 5 } })).transacting
        = some { tag := 5 }
      ∧ (repoWR.qbMax "users" "id"
          (some { readonly := some true, trx := some { tag := 5 } })).transacting
        = some { tag := 5 }
      ∧ (repoWR.qbCPaginate "users" "id"
          (some { readonly := some true, trx := some { tag := 5 } })).transacting
        = some { tag := 5 }
      ∧ ((repoWR.qb "users"
            (some { readonly := some true, trx := some { tag := 5 } })).source =
          if ({ readonly := some true, trx := some { tag := 5 } } : QueryOption).readonly
              = some true
          then repoWR.dbreadonly else repoWR.dbmain)) :=
  ⟨rfl, c1_trx_attach_and_handle repoWR "users" "id" _ _ rfl⟩

/-- C3: with a positive `page_size` the built query carries
`limit (page_size + 1)` by default and `limit page_size` under
`disablePageSizePlusOne`; with `page_size` absent, zero or negative no
limit is applied and every table row satisfying the boundary clauses is
returned. -/
theorem c3_limit_policy (r : Repository) (table idc : String) (opt : QueryOption)
    (env : String → List Nat) :
    (∀ p : Int, opt.page_size = some p → 0 < p →
      ((opt.disablePageSizePlusOne.getD false = false →
          (r.qbCPaginate table idc (some opt)).limit = some (p + 1))
        ∧ (opt.disablePageSizePlusOne = some true →
          (r.qbCPaginate table idc (some opt)).limit = some p)))
    ∧ (opt.page_size.getD 0 ≤ 0 →
        ((r.qbCPaginate table idc (some opt)).limit = none
        ∧ ∀ x ∈ env table,
            (r.qbCPaginate table idc (some opt)).matchesRow env x = true →
            x ∈ (r.qbCPaginate table idc (some opt)).execute env)) := by
  constructor
  · intro p hp hpos
    have hnorm : normPageSize ((some opt).bind fun o => o.page_size) = p := by
      simp [normPageSize, hp, hpos]
    have hp0 : p ≠ 0 := by omega
    constructor
    · intro hdpp
      rw [qbCPaginate_limit, hnorm, if_neg hp0]
      simp [plusOneExtra, hdpp]
    · intro hdpp
      rw [qbCPaginate_limit, hnorm, if_neg hp0]
      simp [plusOneExtra, hdpp]
  · intro hps
    have hnorm : normPageSize ((some opt).bind fun o => o.page_size) = 0 := by
      rcases hp : opt.page_size with _ | p
      · simp [normPageSize, hp]
      · rw [hp] at hps
        have : ¬ (0 : Int) < p := by simpa using hps
        simp [normPageSize, hp, this]
    have hlim : (r.qbCPaginate table idc (some opt)).limit = none := by
      rw [qbCPaginate_limit, hnorm]
      simp
    refine ⟨hlim, fun x hx hm => ?_⟩
    exact mem_execute_of_limit_none _ env hlim x
      (by rw [(qbCPaginate_fields r table idc (some opt)).1]; exact hx) hm

/-- Witness for `c3_limit_policy` at concrete options and a one-row table. -/
theorem c3_limit_policy_witness :
    ((repoWR.qbCPaginate "users" "id" (some { page_size := some 3 })).limit = some 4
      ∧ (repoWR.qbCPaginate "users" "id"
          (some { page_size := some 3, disablePageSizePlusOne := some true })).limit = some 3)
    ∧ ((repoWR.qbCPaginate "users" "id" (some { page_size := some (-2) })).limit = none
      ∧ 5 ∈ (repoWR.qbCPaginate "users" "id"
          (some { page_size := some (-2) })).execute (fun _ => [5])) :=
  ⟨⟨((c3_limit_policy repoWR "users" "id" { page_size := some 3 } (fun _ => [5])).1
        3 rfl (by decide)).1 rfl,
    ((c3_limit_policy repoWR "users" "id"
        { page_size := some 3, disablePageSizePlusOne := some true } (fun _ => [5])).1
        3 rfl (by decide)).2 rfl⟩,
   ⟨((c3_limit_policy repoWR "users" "id" { page_size := some (-2) } (fun _ => [5])).2
        (by decide)).1,
    ((c3_limit_policy repoWR "users" "id" { page_size := some (-2) } (fun _ => [5])).2
        (by decide)).2 5 (by decide) (by decide)⟩⟩

/-- C4: ascending pagination (order `asc` or not `desc`, including absent)
with no `start_id` builds the boundary clause `id_column >= 1` (the domain
minimum sentinel, the source's literal `"1"`) and orders by the id column
ascending. -/
theorem c4_asc_default_boundary (r : Repository) (table idc : String)
    (opt : Option QueryOption)
    (hord : (opt.bind fun o => o.order) ≠ some Order.desc)
    (hsid : (opt.bind fun o => o.start_id) = none) :
    (r.qbCPaginate table idc opt).whereClauses
      = [(qualify table idc opt, Cmp.ge, CursorVal.lit 1)]
    ∧ (r.qbCPaginate table idc opt).orderBy.getLast?
      = some (qualify table idc opt, Order.asc) := by
  have ho : defaultOrder (opt.bind fun o => o.order) = Order.asc := by
    simp [defaultOrder, hord]
  constructor
  · rw [qbCPaginate_whereClauses, ho]
    simp [defaultCursor, hsid, orderCmp]
  · rw [qbCPaginate_orderBy, ho, List.getLast?_concat]

/-- Witness for `c4_asc_default_boundary` with an absent option. -/
theorem c4_asc_default_boundary_witness :
    (((none : Option QueryOption).bind fun o => o.order) ≠ some Order.desc)
    ∧ (((none : Option QueryOption).bind fun o => o.start_id) = none)
    ∧ ((repoWR.qbCPaginate "users" "id" none).whereClauses
        = [(qualify "users" "id" none, Cmp.ge, CursorVal.lit 1)]
      ∧ (repoWR.qbCPaginate "users" "id" none).orderBy.getLast?
        = some (qualify "users" "id" none, Order.asc)) :=
  ⟨by decide, rfl, c4_asc_default_boundary repoWR "users" "id" none (by decide) rfl⟩

/-- C5: descending pagination with no `start_id` builds the boundary clause
`id_column <= (qbMax subquery over the same table, id column and option)`
and orders by the id column descending; the subquery evaluates exactly as
the `qbMax` builder does (SQL `MAX`, `NULL` on an empty table), and over an
empty table the built query executes to the empty sequence rather than an
error. -/
theorem c5_desc_default_boundary (r : Repository) (table idc : String)
    (opt : QueryOption) (env : String → List Nat)
    (hord : opt.order = some Order.desc) (hsid : opt.start_id = none) :
    (r.qbCPaginate table idc (some opt)).whereClauses
      = [(qualify table idc (some opt), Cmp.le, CursorVal.maxSub table idc (some opt))]
    ∧ (r.qbCPaginate table idc (some opt)).orderBy.getLast?
      = some (qualify table idc (some opt), Order.desc)
    ∧ (CursorVal.maxSub table idc (some opt)).eval env
      = (r.qbMax table idc (some opt)).evalMax env
    ∧ (env table = [] → (r.qbCPaginate table idc (some opt)).execute env = []) := by
  have ho : defaultOrder ((some opt).bind fun o => o.order) = Order.desc := by
    simp [defaultOrder, hord]
  refine ⟨?_, ?_, ?_, fun h => ?_⟩
  · rw [qbCPaginate_whereClauses, ho]
    simp [defaultCursor, hsid, orderCmp]
  · rw [qbCPaginate_orderBy, ho, List.getLast?_concat]
  · have htab : (r.qbMax table idc (some opt)).table = table := by
      simp [Repository.qbMax, qb_eq]
    have hwc : (r.qbMax table idc (some opt)).whereClauses = [] := by
      simp [Repository.qbMax, qb_eq]
    have hfil : (env table).filter ((r.qbMax table idc (some opt)).matchesRow env)
        = env table :=
      List.filter_eq_self.mpr fun a _ => by simp [Builder.matchesRow, hwc]
    simp [CursorVal.eval, Builder.evalMax, htab, hfil]
  · exact execute_of_table_empty _ env
      (by rw [(qbCPaginate_fields r table idc (some opt)).1]; exact h)

/-- Witness for `c5_desc_default_boundary` over an empty table. -/
theorem c5_desc_default_boundary_witness :
    ({ order := some Order.desc } : QueryOption).order = some Order.desc
    ∧ ({ order := some Order.desc } : QueryOption).start_id = none
    ∧ ((repoWR.qbCPaginate "users" "id" (some { order := some Order.desc })).whereClauses
        = [(qualify "users" "id" (some { order := some Order.desc }), Cmp.le,
            CursorVal.maxSub "users" "id" (some { order := some Order.desc }))]
      ∧ (repoWR.qbCPaginate "users" "id"
          (some { order := some Order.desc })).orderBy.getLast?
        = some (qualify "users" "id" (some { order := some Order.desc }), Order.desc)
      ∧ (CursorVal.maxSub "users" "id" (some { order := some Order.desc })).eval
          (fun _ => [])
        = (repoWR.qbMax "users" "id" (some { order := some Order.desc })).evalMax
          (fun _ => [])
      ∧ ((fun _ : String => ([] : List Nat)) "users" = [] →
          (repoWR.qbCPaginate "users" "id"
            (some { order := some Order.desc })).execute (fun _ => []) = [])) :=
  ⟨rfl, rfl,
   c5_desc_default_boundary repoWR "users" "id" { order := some Order.desc }
     (fun _ => []) rfl rfl⟩

/-- C8: over a table with ids `1..N` (`N ≥ 7`), ascending pagination with
`start_id = 5`, `page_size = 3` and `disablePageSizePlusOne = true`
executes to exactly the rows `[5, 6, 7]`, in order. -/
theorem c8_ordering_determinism (r : Repository) (N : Nat) (hN : 7 ≤ N) :
    (r.qbCPaginate "users" "id"
        (some { order := some Order.asc, start_id := some 5, page_size := some 3,
                disablePageSizePlusOne := some true })).execute
      (fun _ => List.range' 1 N) = [5, 6, 7] := by
  have hsplit : List.range' 1 N = List.range' 1 4 ++ List.range' 5 (N - 4) := by
    have h := List.range'_append 1 4 (N - 4) 1
    rw [show 1 + 1 * 4 = 5 by norm_num, show N - 4 + 4 = N by omega] at h
    exact h.symm
  have hsplit2 : List.range' 5 (N - 4) = List.range' 5 3 ++ List.range' 8 (N - 7) := by
    have h := List.range'_append 5 3 (N - 7) 1
    rw [show 5 + 1 * 3 = 8 by norm_num, show N - 7 + 3 = N - 4 by omega] at h
    exact h.symm
  have hfil : (List.range' 1 N).filter (fun x => decide (5 ≤ x))
      = List.range' 5 (N - 4) := by
    rw [hsplit, List.filter_append,
      show (List.range' 1 4).filter (fun x => decide (5 ≤ x)) = [] from rfl,
      List.filter_eq_self.mpr]
    · exact List.nil_append _
    · intro a ha
      simpa using (List.mem_range'_1.mp ha).1
  have hsort : List.Sorted (· ≤ ·) (List.range' 5 (N - 4)) :=
    (List.pairwise_lt_range' 5 (N - 4)).imp fun h => le_of_lt h
  have hexec : (r.qbCPaginate "users" "id"
        (some { order := some Order.asc, start_id := some 5, page_size := some 3,
                disablePageSizePlusOne := some true })).execute
      (fun _ => List.range' 1 N)
      = (sortAsc ((List.range' 1 N).filter (fun x => decide (5 ≤ x)))).take 3 := by
    simp [Repository.qbCPaginate, qb_eq, Builder.execute, matchesRow_eq, rowMatches,
      Cmp.holds, CursorVal.eval, defaultOrder, defaultCursor, orderCmp, normPageSize,
      plusOneExtra, qualify, List.all_cons, List.all_nil, Bool.and_true]
  rw [hexec, hfil, sortAsc_eq_of_sorted hsort, hsplit2, List.take_left' (by rfl)]
  rfl

/-- Witness for `c8_ordering_determinism` at `N = 7`. -/
theorem c8_ordering_determinism_witness :
    7 ≤ 7
    ∧ (repoWR.qbCPaginate "users" "id"
        (some { order := some Order.asc, start_id := some 5, page_size := some 3,
                disablePageSizePlusOne := some true })).execute
      (fun _ => List.range' 1 7) = [5, 6, 7] :=
  ⟨by decide, c8_ordering_determinism repoWR 7 (by decide)⟩

/-- Option bag of the 25-row scenario: ascending order, `page_size = 10`,
default peek-row behavior, cursor as supplied. -/
def pageOpt (sid : Option Nat) : QueryOption :=
  { order := some Order.asc, page_size := some 10, start_id := sid }

/-- Executing a `pageOpt` pagination query: filter the table by the cursor
(defaulting to the `1` sentinel), sort ascending, take `10 + 1` rows. -/
theorem execute_pageOpt (r : Repository) (env : String → List Nat) (sid : Option Nat) :
    (r.qbCPaginate "users" "id" (some (pageOpt sid))).execute env
      = (sortAsc ((env "users").filter (fun x => decide (sid.getD 1 ≤ x)))).take 11 := by
  cases sid <;>
    simp [pageOpt, Repository.qbCPaginate, qb_eq, Builder.execute, matchesRow_eq,
      rowMatches, Cmp.holds, CursorVal.eval, defaultOrder, defaultCursor, orderCmp,
      normPageSize, plusOneExtra, qualify, List.all_cons, List.all_nil, Bool.and_true]

/-- Variant of `filter_pivot_of_sorted` with the pivot abstracted. -/
theorem filter_ge_eq_drop (l : List Nat) (hs : List.Sorted (· < ·) l) (k : Nat)
    (hk : k < l.length) (v : Nat) (hv : l.get ⟨k, hk⟩ = v) :
    l.filter (fun x => decide (v ≤ x)) = l.drop k := by
  subst hv
  exact filter_pivot_of_sorted l hs k hk

/-- C2: paginating a 25-row strictly increasing table of positive
(auto-increment domain) ids with `page_size = 10`, ascending order and
default peek-row behavior — first call with no `start_id`, each next call
seeded with the id of the discarded peek row (index 10 of the previous
result) — returns 11, 11 and 5 rows; the two pages of 10 plus the final 5
are exactly the table, in order, with no duplicates and no gaps.  Moreover
for any positive `page_size = n` with the default peek-row setting, any
`qbCPaginate` result has at most `n + 1` elements. -/
theorem c2_peek_row_pagination (r : Repository) (ids : List Nat)
    (hlen : ids.length = 25) (hsorted : List.Sorted (· < ·) ids)
    (hpos : ∀ x ∈ ids, 1 ≤ x)
    (r1 r2 r3 : List Nat)
    (hr1 : r1 = (r.qbCPaginate "users" "id" (some (pageOpt none))).execute (fun _ => ids))
    (hr2 : r2 = (r.qbCPaginate "users" "id"
        (some (pageOpt (some (r1.getD 10 0))))).execute (fun _ => ids))
    (hr3 : r3 = (r.qbCPaginate "users" "id"
        (some (pageOpt (some (r2.getD 10 0))))).execute (fun _ => ids)) :
    r1.length = 11 ∧ r2.length = 11 ∧ r3.length = 5
    ∧ r1.take 10 ++ r2.take 10 ++ r3 = ids
    ∧ ∀ (env2 : String → List Nat) (table idc : String) (opt : QueryOption) (n : Int),
        opt.page_size = some n → 0 < n → opt.disablePageSizePlusOne.getD false = false →
        ((r.qbCPaginate table idc (some opt)).execute env2).length ≤ n.toNat + 1 := by
  have hsle : List.Sorted (· ≤ ·) ids := hsorted.imp fun h => le_of_lt h
  have h10 : (10 : Nat) < ids.length := by omega
  have h20 : (20 : Nat) < ids.length := by omega
  have e1 : r1 = ids.take 11 := by
    rw [hr1, execute_pageOpt]
    show (sortAsc (ids.filter fun x => decide (1 ≤ x))).take 11 = ids.take 11
    rw [List.filter_eq_self.mpr fun a ha => by simpa using hpos a ha,
      sortAsc_eq_of_sorted hsle]
  have hv1 : r1.getD 10 0 = ids.get ⟨10, h10⟩ := by
    rw [e1, getD_take ids 10 11 0 (by omega)]
    exact getD_eq_get ids 10 0 h10
  have e2 : r2 = (ids.drop 10).take 11 := by
    rw [hr2, execute_pageOpt]
    show (sortAsc (ids.filter fun x => decide (r1.getD 10 0 ≤ x))).take 11
      = (ids.drop 10).take 11
    rw [sortAsc_filter_of_sorted hsorted,
      filter_ge_eq_drop ids hsorted 10 h10 _ hv1.symm]
  have hv2 : r2.getD 10 0 = ids.get ⟨20, h20⟩ := by
    rw [e2, getD_take _ 10 11 0 (by omega), getD_drop ids 10 10 0]
    exact getD_eq_get ids 20 0 h20
  have e3 : r3 = ids.drop 20 := by
    rw [hr3, execute_pageOpt]
    show (sortAsc (ids.filter fun x => decide (r2.getD 10 0 ≤ x))).take 11 = ids.drop 20
    rw [sortAsc_filter_of_sorted hsorted,
      filter_ge_eq_drop ids hsorted 20 h20 _ hv2.symm]
    apply List.take_of_length_le
    rw [List.length_drop, hlen]
    omega
  refine ⟨?_, ?_, ?_, ?_, ?_⟩
  · simp [e1, List.length_take, hlen]
  · simp [e2, List.length_take, List.length_drop, hlen]
  · simp [e3, List.length_drop, hlen]
  · rw [e1, e2, e3, List.take_take, List.take_take, List.append_assoc]
    have hdd : (ids.drop 10).drop 10 = ids.drop 20 := by
      rw [List.drop_drop]
    show ids.take 10 ++ ((ids.drop 10).take 10 ++ ids.drop 20) = ids
    rw [← hdd, List.take_append_drop, List.take_append_drop]
  · intro env2 table idc opt n hps hn hdpp
    have hnorm : normPageSize ((some opt).bind fun o => o.page_size) = n := by
      simp [normPageSize, hps, hn]
    have hn0 : n ≠ 0 := by omega
    have hlim : (r.qbCPaginate table idc (some opt)).limit = some (n + 1) := by
      rw [qbCPaginate_limit, hnorm, if_neg hn0]
      simp [plusOneExtra, hdpp]
    have hle := execute_length_le _ env2 _ hlim
    have ht : ((n : Int) + 1).toNat = n.toNat + 1 := by omega
    rw [ht] at hle
    exact hle

/-- The three result sequences of the 25-row scenario at `ids = [1..25]`. -/
def c2r1 : List Nat :=
  (repoWR.qbCPaginate "users" "id" (some (pageOpt none))).execute
    (fun _ => List.range' 1 25)

/-- Second page of the concrete 25-row scenario. -/
def c2r2 : List Nat :=
  (repoWR.qbCPaginate "users" "id" (some (pageOpt (some (c2r1.getD 10 0))))).execute
    (fun _ => List.range' 1 25)

/-- Third page of the concrete 25-row scenario. -/
def c2r3 : List Nat :=
  (repoWR.qbCPaginate "users" "id" (some (pageOpt (some (c2r2.getD 10 0))))).execute
    (fun _ => List.range' 1 25)

/-- Witness for `c2_peek_row_pagination` at `ids = [1..25]`. -/
theorem c2_peek_row_pagination_witness :
    ((List.range' 1 25).length = 25
      ∧ List.Sorted (· < ·) (List.range' 1 25)
      ∧ (∀ x ∈ List.range' 1 25, 1 ≤ x))
    ∧ (c2r1.length = 11 ∧ c2r2.length = 11 ∧ c2r3.length = 5
      ∧ c2r1.take 10 ++ c2r2.take 10 ++ c2r3 = List.range' 1 25) :=
  ⟨⟨by decide, List.pairwise_lt_range' 1 25, by decide⟩,
   (fun h => ⟨h.1, h.2.1, h.2.2.1, h.2.2.2.1⟩)
     (c2_peek_row_pagination repoWR (List.range' 1 25) (by decide)
       (List.pairwise_lt_range' 1 25) (by decide) c2r1 c2r2 c2r3 rfl rfl rfl)⟩

